import Mathlib

/-!
Shallow embedding of the Library Management System (`src/lms.py`) and proofs
of the specification claims about its loan-lifecycle, catalog and account
operations.

The persistent store is the SQLite database created by `create_tables`:
three record sets (`users`, `books`, `issues`).  SQLite enforces on it:
`PRIMARY KEY AUTOINCREMENT` identifiers (unique, monotonically assigned),
`username TEXT UNIQUE`, `CHECK(role IN ('admin','user'))` and
`CHECK(status IN ('Available','Issued'))`.  Those schema facts are captured
by the wellformedness predicate `WF` below; the operations are translated
function-by-function from the Python source.  Interactive `input()` prompts
become function arguments; `print`-and-return error paths become `Except`
errors.  Password hashing (SHA-256) is orthogonal I/O glue and the stored
credential is modelled as the supplied string.
-/

namespace LMS

/-- Calendar dates `YYYY-MM-DD` as stored in the `issue_date`/`return_date`
columns (the code parses and formats them with `%Y-%m-%d`). -/
structure Date where
  year : Nat
  month : Nat
  day : Nat
deriving DecidableEq, Repr

/-- Day number of a civil date counted from 0000-03-01 of the proleptic
Gregorian calendar; models what `datetime.date` does internally so that
`datetime.timedelta(days=n)` becomes addition on day numbers. -/
def daysFromCivil (dt : Date) : Nat :=
  let y := if dt.month ≤ 2 then dt.year - 1 else dt.year
  let era := y / 400
  let yoe := y % 400
  let mp := (dt.month + 9) % 12
  let doy := (153 * mp + 2) / 5 + dt.day - 1
  let doe := yoe * 365 + yoe / 4 - yoe / 100 + doy
  era * 146097 + doe

/-- Civil date of a day number (inverse of `daysFromCivil`). -/
def civilFromDays (z : Nat) : Date :=
  let era := z / 146097
  let doe := z % 146097
  let yoe := (doe - doe / 1460 + doe / 36524 - doe / 146096) / 365
  let y := yoe + era * 400
  let doy := doe - (365 * yoe + yoe / 4 - yoe / 100)
  let mp := (5 * doy + 2) / 153
  let d := doy - (153 * mp + 2) / 5 + 1
  let m := if mp < 10 then mp + 3 else mp - 9
  { year := if m ≤ 2 then y + 1 else y, month := m, day := d }

/-- `dt + datetime.timedelta(days=n)` from `issue_book`. -/
def addDays (dt : Date) (n : Nat) : Date :=
  civilFromDays (daysFromCivil dt + n)

/-- A row of the `users` table. -/
structure User where
  id : Nat
  username : String
  password : String
  role : String
deriving DecidableEq, Repr

/-- A row of the `books` table. -/
structure Book where
  id : Nat
  title : String
  author : String
  category : String
  status : String
deriving DecidableEq, Repr

/-- A row of the `issues` (loan record) table. -/
structure Issue where
  id : Nat
  book_id : Nat
  user_id : Nat
  issue_date : Date
  return_date : Date
  returned : Bool
deriving DecidableEq, Repr

/-- The database state: the three record sets plus the AUTOINCREMENT
counters SQLite keeps for the two tables whose inserts the claims exercise. -/
structure DB where
  users : List User
  books : List Book
  issues : List Issue
  nextUserId : Nat
  nextIssueId : Nat
deriving DecidableEq, Repr

/-- The user-facing failure messages of the operations. -/
inductive LibError where
  | NotFound
  | AlreadyIssued
  | AlreadyReturned
  | DuplicateUsername
  | InvalidInput
deriving DecidableEq, Repr

instance exceptDecEq {ε α : Type} [DecidableEq ε] [DecidableEq α] :
    DecidableEq (Except ε α)
  | .error a, .error b =>
    if h : a = b then .isTrue (by rw [h])
    else .isFalse (by intro hc; injection hc; contradiction)
  | .error _, .ok _ => .isFalse (by intro hc; exact Except.noConfusion hc)
  | .ok _, .error _ => .isFalse (by intro hc; exact Except.noConfusion hc)
  | .ok a, .ok b =>
    if h : a = b then .isTrue (by rw [h])
    else .isFalse (by intro hc; injection hc; contradiction)

/-- `create_user`: INSERT INTO users; any `sqlite3.IntegrityError`
(duplicate username via the UNIQUE constraint, or a role outside the
`CHECK(role IN ('admin','user'))` constraint) is caught and reported with
the single message `Error: Username already exists.`. -/
def create_user (db : DB) (username password role : String) : Except LibError DB :=
  if db.users.any (fun u => u.username == username) || !(role == "admin" || role == "user") then
    .error .DuplicateUsername
  else
    .ok { db with
          users := db.users ++ [{ id := db.nextUserId, username := username,
                                  password := password, role := role }],
          nextUserId := db.nextUserId + 1 }

/-- `update_book`: looks the row up by id, takes each field from the input
or keeps the stored one, and if the supplied status is not `Available` or
`Issued` prints `Invalid status. Keeping existing.` and keeps the stored
status, then performs the UPDATE.  `none` models a blank input (keep). -/
def update_book (db : DB) (bid : Nat) (title author category status : Option String) :
    Except LibError DB :=
  match db.books.find? (fun b => b.id == bid) with
  | none => .error .NotFound
  | some row =>
    let t := title.getD row.title
    let a := author.getD row.author
    let cat := category.getD row.category
    let s0 := status.getD row.status
    let s := if s0 == "Available" || s0 == "Issued" then s0 else row.status
    .ok { db with
          books := db.books.map (fun b =>
            if b.id = bid then
              { b with title := t, author := a, category := cat, status := s }
            else b) }

/-- `delete_book`: DELETE FROM books WHERE id=?; unconditional. -/
def delete_book (db : DB) (bid : Nat) : DB :=
  { db with books := db.books.filter (fun b => !(b.id == bid)) }

/-- `issue_book`: fails `NotFound` when the book is missing, `AlreadyIssued`
when `book['status'] == 'Issued'`, `NotFound` when the user is missing;
otherwise inserts a loan record with `returned = 0` (due date defaulting to
issue date + 14 days) and sets the book's status to `Issued`. -/
def issue_book (db : DB) (bid uid : Nat) (issueDate : Date) (dueDate : Option Date) :
    Except LibError DB :=
  match db.books.find? (fun b => b.id == bid) with
  | none => .error .NotFound
  | some book =>
    if book.status == "Issued" then .error .AlreadyIssued
    else
      match db.users.find? (fun u => u.id == uid) with
      | none => .error .NotFound
      | some _ =>
        let ret := match dueDate with
          | some d => d
          | none => addDays issueDate 14
        .ok { db with
              issues := db.issues ++ [{ id := db.nextIssueId, book_id := bid, user_id := uid,
                                        issue_date := issueDate, return_date := ret,
                                        returned := false }],
              books := db.books.map (fun b =>
                if b.id = bid then { b with status := "Issued" } else b),
              nextIssueId := db.nextIssueId + 1 }

/-- `return_book`: fails `NotFound` when the loan record is missing,
`AlreadyReturned` when `issue['returned']` is set; otherwise flips the
record's `returned` flag and sets the referenced book's status to
`Available` (an UPDATE that touches no row when the book was deleted). -/
def return_book (db : DB) (iid : Nat) : Except LibError DB :=
  match db.issues.find? (fun r => r.id == iid) with
  | none => .error .NotFound
  | some iss =>
    if iss.returned then .error .AlreadyReturned
    else
      .ok { db with
            issues := db.issues.map (fun r =>
              if r.id = iid then { r with returned := true } else r),
            books := db.books.map (fun b =>
              if b.id = iss.book_id then { b with status := "Available" } else b) }

/-- ASCII case folding of a column value's characters (SQLite's LIKE folds
only the ASCII range). -/
def lowerChars (l : List Char) : List Char :=
  l.map Char.toLower

/-- Tries a matcher on every suffix of the string: the continuation search
performed by a `%` wildcard. -/
def suffixAny (f : List Char → Bool) : List Char → Bool
  | [] => f []
  | c :: cs => f (c :: cs) || suffixAny f cs

/-- SQLite `LIKE` pattern matching over characters, as the search queries
use it (no ESCAPE clause): `%` matches any, possibly empty, character
sequence; `_` matches exactly one character; any other pattern character
matches one character up to ASCII case. -/
def likeMatch : List Char → List Char → Bool
  | [] => fun s => s.isEmpty
  | p :: ps =>
    if p = '%' then fun s => suffixAny (likeMatch ps) s
    else fun s =>
      match s with
      | [] => false
      | d :: cs => (p == '_' || p.toLower == d.toLower) && likeMatch ps cs

/-- `search_books`, choice 1 (title): SELECT * FROM books WHERE title LIKE
?, with the pattern built as `'%'+q+'%'` around the raw user query, so
wildcards inside the query stay active; returns the (possibly empty) row
list. -/
def search_books_title (db : DB) (q : String) : List Book :=
  db.books.filter (fun b => likeMatch ('%' :: (q.toList ++ ['%'])) b.title.toList)

/-- `sub` occurs contiguously inside `l`: the decidable case-sensitive
substring test used to state (and refute) the substring reading of the
search; compare `containsSub_iff`. -/
def containsSub (needle : List Char) : List Char → Bool
  | [] => needle.isEmpty
  | c :: cs => needle.isPrefixOf (c :: cs) || containsSub needle cs

/-- The query contains neither of the two LIKE wildcard characters. -/
def noWildcards (l : List Char) : Bool :=
  l.all (fun c => !(c == '%') && !(c == '_'))

/-- One step of the loan lifecycle as driven by the `issue_return_menu`
loop: an issue request or a return request with its inputs. -/
inductive LoanOp where
  | issueOp (bid uid : Nat) (d : Date) (due : Option Date)
  | returnOp (iid : Nat)
deriving DecidableEq, Repr

/-- Running one loan operation against the store: a failed operation prints
its message and leaves the database unchanged. -/
def applyLoanOp (db : DB) : LoanOp → DB
  | .issueOp bid uid d due =>
    match issue_book db bid uid d due with
    | .ok db2 => db2
    | .error _ => db
  | .returnOp iid =>
    match return_book db iid with
    | .ok db2 => db2
    | .error _ => db

/-- Running a sequence of issue/return operations. -/
def applyLoanOps (db : DB) (ops : List LoanOp) : DB :=
  ops.foldl applyLoanOp db

/-- The loan record a successful `issue_book` inserts. -/
def newLoan (db : DB) (bid uid : Nat) (d : Date) (due : Option Date) : Issue :=
  { id := db.nextIssueId, book_id := bid, user_id := uid, issue_date := d,
    return_date := due.getD (addDays d 14), returned := false }

/-- The database a successful `issue_book` produces. -/
def issueResult (db : DB) (bid uid : Nat) (d : Date) (due : Option Date) : DB :=
  { db with
    issues := db.issues ++ [newLoan db bid uid d due],
    books := db.books.map (fun b => if b.id = bid then { b with status := "Issued" } else b),
    nextIssueId := db.nextIssueId + 1 }

/-- The database a successful `return_book` produces, where `bid2` is the
`book_id` of the loan record being closed. -/
def returnResult (db : DB) (iid bid2 : Nat) : DB :=
  { db with
    issues := db.issues.map (fun r => if r.id = iid then { r with returned := true } else r),
    books := db.books.map (fun b => if b.id = bid2 then { b with status := "Available" } else b) }

/-- Number of open loan records (`returned = 0`) referencing book `bid`. -/
def openCount (issues : List Issue) (bid : Nat) : Nat :=
  issues.countP (fun r => r.book_id == bid && !r.returned)

/-- Schema facts SQLite enforces on every reachable database: primary-key
uniqueness for books and loan records, AUTOINCREMENT freshness for loan
ids, and the `CHECK(status IN ('Available','Issued'))` constraint. -/
def WF (db : DB) : Prop :=
  (db.books.map Book.id).Nodup ∧
  (db.issues.map Issue.id).Nodup ∧
  (∀ r ∈ db.issues, r.id < db.nextIssueId) ∧
  (∀ b ∈ db.books, b.status = "Available" ∨ b.status = "Issued")

/-- The status/open-loan invariant: every catalog item is `Issued` iff
exactly one open loan record references it and `Available` iff none does. -/
def Inv (db : DB) : Prop :=
  ∀ b ∈ db.books,
    (b.status = "Issued" ↔ openCount db.issues b.id = 1) ∧
    (b.status = "Available" ↔ openCount db.issues b.id = 0)

instance (db : DB) : Decidable (WF db) := by
  unfold WF
  infer_instance

instance (db : DB) : Decidable (Inv db) := by
  unfold Inv
  infer_instance

/-! Concrete states used to instantiate the theorems, mirroring the
scenario of the spec (account `alice`, books `1984` and `The Alchemist`). -/

def aliceUser : User :=
  { id := 1, username := "alice", password := "secret", role := "user" }

def book1984A : Book :=
  { id := 1, title := "1984", author := "George Orwell", category := "Fiction",
    status := "Available" }

def book1984I : Book :=
  { id := 1, title := "1984", author := "George Orwell", category := "Fiction",
    status := "Issued" }

def bookAlchemist : Book :=
  { id := 2, title := "The Alchemist", author := "Paulo Coelho", category := "Fiction",
    status := "Available" }

def openLoan1 : Issue :=
  { id := 1, book_id := 1, user_id := 1, issue_date := ⟨2024, 1, 1⟩,
    return_date := ⟨2024, 1, 15⟩, returned := false }

def closedLoan1 : Issue :=
  { id := 1, book_id := 1, user_id := 1, issue_date := ⟨2024, 1, 1⟩,
    return_date := ⟨2024, 1, 15⟩, returned := true }

def danglingLoan : Issue :=
  { id := 1, book_id := 5, user_id := 1, issue_date := ⟨2024, 1, 1⟩,
    return_date := ⟨2024, 1, 15⟩, returned := false }

/-- Fresh store: two available books, one account, no loans. -/
def demoDB : DB :=
  { users := [aliceUser], books := [book1984A, bookAlchemist], issues := [],
    nextUserId := 2, nextIssueId := 1 }

/-- Store in which `1984` is currently issued to alice. -/
def issuedDB : DB :=
  { users := [aliceUser], books := [book1984I], issues := [openLoan1],
    nextUserId := 2, nextIssueId := 2 }

/-- Store in which the single loan of `1984` has been returned. -/
def returnedDB : DB :=
  { users := [aliceUser], books := [book1984A], issues := [closedLoan1],
    nextUserId := 2, nextIssueId := 2 }

/-- Inconsistent store reachable through the manual status override: `1984`
is marked `Available` although an open loan still references it. -/
def overrideDB : DB :=
  { users := [aliceUser], books := [book1984A], issues := [openLoan1],
    nextUserId := 2, nextIssueId := 2 }

/-- Store holding an open loan whose book (id 5) has been deleted. -/
def danglingDB : DB :=
  { users := [aliceUser], books := [], issues := [danglingLoan],
    nextUserId := 2, nextIssueId := 2 }

/-- Result of issuing `1984` to alice on 2024-01-01 in the fresh store. -/
def c5db : DB :=
  applyLoanOp demoDB (.issueOp 1 1 ⟨2024, 1, 1⟩ none)

/-- Sample operation sequence: issue both books, return the first loan,
attempt a double issue (which fails). -/
def demoOps : List LoanOp :=
  [.issueOp 1 1 ⟨2024, 1, 1⟩ none, .issueOp 2 1 ⟨2024, 1, 3⟩ none,
   .returnOp 1, .issueOp 2 1 ⟨2024, 1, 5⟩ none]

/-! General list helper lemmas. -/

theorem find?_split {α : Type} {p : α → Bool} {l : List α} {a : α}
    (h : l.find? p = some a) :
    ∃ l1 l2, l = l1 ++ a :: l2 ∧ ∀ x ∈ l1, p x = false := by
  induction l with
  | nil => simp at h
  | cons b bs ih =>
    by_cases hb : p b = true
    · rw [List.find?_cons_of_pos _ hb] at h
      obtain rfl : b = a := by injection h
      exact ⟨[], bs, rfl, by simp⟩
    · rw [List.find?_cons_of_neg _ hb] at h
      obtain ⟨l1, l2, rfl, hl1⟩ := ih h
      refine ⟨b :: l1, l2, rfl, ?_⟩
      intro x hx
      rcases List.mem_cons.mp hx with rfl | hx2
      · simpa using hb
      · exact hl1 x hx2

theorem find?_append_left_none {α : Type} {p : α → Bool} {l1 l2 : List α}
    (h : ∀ x ∈ l1, p x = false) : (l1 ++ l2).find? p = l2.find? p := by
  induction l1 with
  | nil => rfl
  | cons b bs ih =>
    rw [List.cons_append, List.find?_cons_of_neg]
    · exact ih fun x hx => h x (List.mem_cons_of_mem _ hx)
    · simp [h b (List.mem_cons_self _ _)]

theorem find?_key_of_nodup {α β : Type} [BEq β] [LawfulBEq β] (f : α → β) {l : List α} {a : α}
    (hnd : (l.map f).Nodup) (ha : a ∈ l) :
    l.find? (fun x => f x == f a) = some a := by
  induction l with
  | nil => cases ha
  | cons b bs ih =>
    rw [List.map_cons, List.nodup_cons] at hnd
    rcases List.mem_cons.mp ha with rfl | ha2
    · exact List.find?_cons_of_pos _ (by simp)
    · rw [List.find?_cons_of_neg]
      · exact ih hnd.2 ha2
      · simp only [beq_iff_eq, Bool.not_eq_true, decide_eq_false_iff_not]
        intro hfb
        apply hnd.1
        rw [hfb]
        exact List.mem_map_of_mem f ha2

/-! Characterizations of the success branches of the two loan operations. -/

theorem issue_book_eq_ok {db : DB} {bid uid : Nat} {d : Date} {due : Option Date}
    {book : Book} {u : User}
    (hf : db.books.find? (fun b => b.id == bid) = some book)
    (hs : (book.status == "Issued") = false)
    (hu : db.users.find? (fun x => x.id == uid) = some u) :
    issue_book db bid uid d due = .ok (issueResult db bid uid d due) := by
  cases due <;> simp [issue_book, hf, hs, hu, issueResult, newLoan, Option.getD]

theorem issue_book_ok_inv {db : DB} {bid uid : Nat} {d : Date} {due : Option Date} {db2 : DB}
    (h : issue_book db bid uid d due = .ok db2) :
    ∃ book u, db.books.find? (fun b => b.id == bid) = some book ∧
      (book.status == "Issued") = false ∧
      db.users.find? (fun x => x.id == uid) = some u ∧
      db2 = issueResult db bid uid d due := by
  unfold issue_book at h
  cases hf : db.books.find? (fun b => b.id == bid) with
  | none => rw [hf] at h; simp at h
  | some book =>
    rw [hf] at h
    by_cases hs : (book.status == "Issued") = true
    · simp [hs] at h
    · rw [Bool.not_eq_true] at hs
      simp only [hs, Bool.false_eq_true, if_false] at h
      cases hu : db.users.find? (fun x => x.id == uid) with
      | none => rw [hu] at h; simp at h
      | some u =>
        rw [hu] at h
        refine ⟨book, u, rfl, hs, rfl, ?_⟩
        cases due <;> simp_all [issueResult, newLoan, Option.getD]

theorem return_book_eq_ok {db : DB} {iid : Nat} {iss : Issue}
    (hf : db.issues.find? (fun r => r.id == iid) = some iss)
    (hr : iss.returned = false) :
    return_book db iid = .ok (returnResult db iid iss.book_id) := by
  simp [return_book, hf, hr, returnResult]

theorem return_book_ok_inv {db : DB} {iid : Nat} {db2 : DB}
    (h : return_book db iid = .ok db2) :
    ∃ iss, db.issues.find? (fun r => r.id == iid) = some iss ∧ iss.returned = false ∧
      db2 = returnResult db iid iss.book_id := by
  unfold return_book at h
  cases hf : db.issues.find? (fun r => r.id == iid) with
  | none => rw [hf] at h; simp at h
  | some iss =>
    rw [hf] at h
    by_cases hr : iss.returned = true
    · simp [hr] at h
    · rw [Bool.not_eq_true] at hr
      simp only [hr, Bool.false_eq_true, if_false, Except.ok.injEq] at h
      exact ⟨iss, rfl, hr, h.symm⟩

/-! Counting open loans across the two mutations. -/

theorem openCount_append (l : List Issue) (r : Issue) (bid : Nat) :
    openCount (l ++ [r]) bid =
      openCount l bid + (if r.book_id = bid ∧ r.returned = false then 1 else 0) := by
  simp only [openCount, List.countP_append, List.countP_cons, List.countP_nil]
  by_cases hb : r.book_id = bid <;> by_cases hr : r.returned = false <;>
    simp [hb, hr, Bool.not_eq_true']

theorem openCount_return {issues : List Issue} {iss : Issue} {iid : Nat}
    (hnd : (issues.map Issue.id).Nodup)
    (hf : issues.find? (fun r => r.id == iid) = some iss)
    (hro : iss.returned = false) (bid : Nat) :
    openCount issues bid =
      openCount (issues.map (fun r => if r.id = iid then { r with returned := true } else r)) bid
        + (if iss.book_id = bid then 1 else 0) := by
  obtain ⟨l1, l2, rfl, hl1⟩ := find?_split hf
  have hid : iss.id = iid := by simpa using List.find?_some hf
  have hl1' : ∀ x ∈ l1, x.id ≠ iid := by
    intro x hx
    have := hl1 x hx
    simpa using this
  have hl2 : ∀ x ∈ l2, x.id ≠ iid := by
    rw [List.map_append, List.map_cons] at hnd
    have hmid := List.nodup_middle.mp hnd
    rw [List.nodup_cons] at hmid
    intro x hx hxid
    apply hmid.1
    rw [hid, ← hxid]
    exact List.mem_append_right _ (List.mem_map_of_mem _ hx)
  have hmap : (l1 ++ iss :: l2).map
        (fun r => if r.id = iid then { r with returned := true } else r)
      = l1 ++ { iss with returned := true } :: l2 := by
    rw [List.map_append, List.map_cons]
    congr 1
    · conv_rhs => rw [← List.map_id l1]
      exact List.map_congr_left fun a ha => by simp [hl1' a ha]
    · congr 1
      · simp [hid]
      · conv_rhs => rw [← List.map_id l2]
        exact List.map_congr_left fun a ha => by simp [hl2 a ha]
  rw [hmap]
  simp only [openCount, List.countP_append, List.countP_cons]
  by_cases hb : iss.book_id = bid
  · simp [hb, hro]
    omega
  · simp [hb, hro]

/-! Both loan operations preserve the schema facts and the invariant. -/

theorem issue_preserves {db : DB} {bid uid : Nat} {d : Date} {due : Option Date} {db2 : DB}
    (h : issue_book db bid uid d due = .ok db2)
    (hwf : WF db) (hinv : Inv db) : WF db2 ∧ Inv db2 := by
  obtain ⟨book, u, hf, hs, hu, rfl⟩ := issue_book_ok_inv h
  obtain ⟨hndB, hndI, hfresh, hstat⟩ := hwf
  have hbmem : book ∈ db.books := List.mem_of_find?_eq_some hf
  have hbid : book.id = bid := by simpa using List.find?_some hf
  have hsne : book.status ≠ "Issued" := by simpa using hs
  have hbooks_id : (issueResult db bid uid d due).books.map Book.id = db.books.map Book.id := by
    simp only [issueResult, List.map_map]
    exact List.map_congr_left fun b hb => by by_cases hc : b.id = bid <;> simp [hc]
  have hcount : ∀ z, openCount (issueResult db bid uid d due).issues z =
      openCount db.issues z + (if bid = z then 1 else 0) := by
    intro z
    simp only [issueResult]
    rw [openCount_append]
    simp [newLoan]
  constructor
  · refine ⟨?_, ?_, ?_, ?_⟩
    · rw [hbooks_id]; exact hndB
    · simp only [issueResult, List.map_append, List.map_cons, List.map_nil]
      rw [List.nodup_append]
      refine ⟨hndI, List.nodup_singleton _, ?_⟩
      intro a ha hb
      rw [List.mem_singleton] at hb
      obtain ⟨r, hr, hrid⟩ := List.mem_map.mp ha
      have := hfresh r hr
      simp only [newLoan] at hb
      omega
    · intro r hr
      simp only [issueResult, List.mem_append, List.mem_singleton] at hr
      rcases hr with hr | rfl
      · calc r.id < db.nextIssueId := hfresh r hr
          _ < (issueResult db bid uid d due).nextIssueId := by simp [issueResult]
      · simp [newLoan, issueResult]
    · intro b' hb'
      obtain ⟨b, hb, rfl⟩ := List.mem_map.mp hb'
      by_cases hc : b.id = bid
      · simp [hc]
      · simpa [hc] using hstat b hb
  · intro b' hb'
    obtain ⟨b, hb, rfl⟩ := List.mem_map.mp hb'
    by_cases hc : b.id = bid
    · have hbb : b = book := List.inj_on_of_nodup_map hndB hb hbmem (by rw [hc, hbid])
      have hav : book.status = "Available" := (hstat book hbmem).resolve_right hsne
      have h0 : openCount db.issues bid = 0 := by
        have := ((hinv book hbmem).2).mp hav
        rwa [hbid] at this
      have hcnt : openCount (issueResult db bid uid d due).issues
          (if b.id = bid then { b with status := "Issued" } else b).id = 1 := by
        rw [hcount]
        simp [hc, h0]
      rw [hcnt]
      simp [hc]
    · have hne : bid ≠ b.id := fun hh => hc hh.symm
      have hcnt : openCount (issueResult db bid uid d due).issues
          (if b.id = bid then { b with status := "Issued" } else b).id =
          openCount db.issues b.id := by
        rw [hcount]
        simp [hc, hne]
      rw [hcnt]
      simpa [hc] using hinv b hb

theorem return_preserves {db : DB} {iid : Nat} {db2 : DB}
    (h : return_book db iid = .ok db2)
    (hwf : WF db) (hinv : Inv db) : WF db2 ∧ Inv db2 := by
  obtain ⟨iss, hf, hro, rfl⟩ := return_book_ok_inv h
  obtain ⟨hndB, hndI, hfresh, hstat⟩ := hwf
  have hcount := fun z => openCount_return hndI hf hro z
  have hissues_id : (returnResult db iid iss.book_id).issues.map Issue.id
      = db.issues.map Issue.id := by
    simp only [returnResult, List.map_map]
    exact List.map_congr_left fun r hr => by by_cases hc : r.id = iid <;> simp [hc]
  constructor
  · refine ⟨?_, ?_, ?_, ?_⟩
    · simp only [returnResult, List.map_map]
      have : (db.books.map ((fun b : Book => b.id) ∘
          (fun b => if b.id = iss.book_id then { b with status := "Available" } else b)))
          = db.books.map Book.id :=
        List.map_congr_left fun b hb => by by_cases hc : b.id = iss.book_id <;> simp [hc]
      rw [this]; exact hndB
    · rw [hissues_id]; exact hndI
    · intro r hr
      simp only [returnResult] at hr ⊢
      obtain ⟨r0, hr0, rfl⟩ := List.mem_map.mp hr
      have hlt := hfresh r0 hr0
      by_cases hc : r0.id = iid <;> simp [hc] <;> omega
    · intro b' hb'
      simp only [returnResult] at hb'
      obtain ⟨b, hb, rfl⟩ := List.mem_map.mp hb'
      by_cases hc : b.id = iss.book_id
      · simp [hc]
      · simpa [hc] using hstat b hb
  · intro b' hb'
    simp only [returnResult] at hb'
    obtain ⟨b, hb, rfl⟩ := List.mem_map.mp hb'
    by_cases hc : b.id = iss.book_id
    · have hold : openCount db.issues b.id =
          openCount (returnResult db iid iss.book_id).issues b.id + 1 := by
        have := hcount b.id
        simpa [returnResult, hc] using this
      have hbv := hstat b hb
      have hnew0 : openCount (returnResult db iid iss.book_id).issues b.id = 0 := by
        rcases hbv with hav | hiss
        · have := ((hinv b hb).2).mp hav
          omega
        · have := ((hinv b hb).1).mp hiss
          omega
      have : (if b.id = iss.book_id then { b with status := "Available" } else b).id = b.id := by
        by_cases hcc : b.id = iss.book_id <;> simp [hcc]
      rw [this, hnew0]
      simp [hc]
    · have hsame : openCount (returnResult db iid iss.book_id).issues b.id =
          openCount db.issues b.id := by
        have hthis := hcount b.id
        have hne : iss.book_id ≠ b.id := fun hh => hc hh.symm
        simp only [returnResult] at hthis ⊢
        simpa [hne] using hthis.symm
      have : (if b.id = iss.book_id then { b with status := "Available" } else b) = b := by
        simp [hc]
      rw [this, hsame]
      exact hinv b hb

theorem applyLoanOp_preserves (db : DB) (op : LoanOp) (h : WF db ∧ Inv db) :
    WF (applyLoanOp db op) ∧ Inv (applyLoanOp db op) := by
  cases op with
  | issueOp bid uid d due =>
    cases hres : issue_book db bid uid d due with
    | ok db2 => simpa [applyLoanOp, hres] using issue_preserves hres h.1 h.2
    | error e => simpa [applyLoanOp, hres] using h
  | returnOp iid =>
    cases hres : return_book db iid with
    | ok db2 => simpa [applyLoanOp, hres] using return_preserves hres h.1 h.2
    | error e => simpa [applyLoanOp, hres] using h

theorem applyLoanOps_preserves (db : DB) (ops : List LoanOp) (h : WF db ∧ Inv db) :
    WF (applyLoanOps db ops) ∧ Inv (applyLoanOps db ops) := by
  induction ops generalizing db with
  | nil => simpa [applyLoanOps] using h
  | cons op rest ih =>
    simp only [applyLoanOps, List.foldl_cons]
    exact ih _ (applyLoanOp_preserves db op h)

/-! Correctness of the substring test and of the `LIKE` matcher: on
wildcard-free queries the pattern `'%'+q+'%'` means exactly "contains `q`
as a case-insensitive substring". -/

theorem isPrefixOf_eq_true_iff (n : List Char) : ∀ h : List Char,
    n.isPrefixOf h = true ↔ ∃ t, n ++ t = h := by
  induction n with
  | nil =>
    intro h
    simp [List.isPrefixOf]
  | cons a as ih =>
    intro h
    cases h with
    | nil => simp [List.isPrefixOf]
    | cons b bs =>
      simp only [List.isPrefixOf, Bool.and_eq_true, beq_iff_eq, ih bs]
      constructor
      · rintro ⟨rfl, t, rfl⟩
        exact ⟨t, rfl⟩
      · rintro ⟨t, ht⟩
        injection ht with h1 h2
        exact ⟨h1, t, h2⟩

theorem containsSub_iff (n : List Char) : ∀ h : List Char,
    containsSub n h = true ↔ ∃ l r, h = l ++ n ++ r := by
  intro h
  induction h with
  | nil =>
    simp only [containsSub, List.isEmpty_iff]
    constructor
    · rintro rfl
      exact ⟨[], [], rfl⟩
    · rintro ⟨l, r, hlr⟩
      have h1 := List.append_eq_nil.mp hlr.symm
      exact (List.append_eq_nil.mp h1.1).2
  | cons c cs ih =>
    simp only [containsSub, Bool.or_eq_true, ih, isPrefixOf_eq_true_iff]
    constructor
    · rintro (⟨t, ht⟩ | ⟨l, r, rfl⟩)
      · exact ⟨[], t, by simp [ht]⟩
      · exact ⟨c :: l, r, rfl⟩
    · rintro ⟨l, r, he⟩
      cases l with
      | nil =>
        left
        exact ⟨r, by simpa using he.symm⟩
      | cons x xs =>
        right
        rw [List.cons_append] at he
        injection he with h1 h2
        exact ⟨xs, r, h2⟩

theorem suffixAny_eq_true_iff (f : List Char → Bool) : ∀ s : List Char,
    suffixAny f s = true ↔ ∃ l r, s = l ++ r ∧ f r = true := by
  intro s
  induction s with
  | nil =>
    simp only [suffixAny]
    constructor
    · intro h
      exact ⟨[], [], rfl, h⟩
    · rintro ⟨l, r, hlr, h⟩
      have h1 := List.append_eq_nil.mp hlr.symm
      rw [← h1.2]
      exact h
  | cons c cs ih =>
    simp only [suffixAny, Bool.or_eq_true, ih]
    constructor
    · rintro (h | ⟨l, r, rfl, h⟩)
      · exact ⟨[], c :: cs, rfl, h⟩
      · exact ⟨c :: l, r, rfl, h⟩
    · rintro ⟨l, r, he, h⟩
      cases l with
      | nil =>
        left
        rw [List.nil_append] at he
        rw [he]
        exact h
      | cons x xs =>
        right
        injection he with h1 h2
        exact ⟨xs, r, h2, h⟩

theorem likeMatch_tail_iff {q : List Char} (hw : noWildcards q = true) : ∀ r : List Char,
    likeMatch (q ++ ['%']) r = true ↔
      ∃ a b, r = a ++ b ∧ lowerChars a = lowerChars q := by
  induction q with
  | nil =>
    intro r
    rw [List.nil_append]
    show (if '%' = '%' then fun s => suffixAny (likeMatch []) s else _) r = true ↔ _
    rw [if_pos rfl]
    constructor
    · intro _
      exact ⟨[], r, rfl, rfl⟩
    · intro _
      show suffixAny _ r = true
      rw [suffixAny_eq_true_iff]
      exact ⟨r, [], by simp, by simp [likeMatch]⟩
  | cons c q2 ih =>
    intro r
    rw [noWildcards, List.all_cons, Bool.and_eq_true, Bool.and_eq_true] at hw
    obtain ⟨⟨hc1, hc2⟩, hw2⟩ := hw
    have hcp : ¬ c = '%' := by simpa using hc1
    have ih2 := ih hw2
    rw [List.cons_append]
    show (if c = '%' then _ else fun s => match s with
      | [] => false
      | d :: cs => (c == '_' || c.toLower == d.toLower) && likeMatch (q2 ++ ['%']) cs)
        r = true ↔ _
    rw [if_neg hcp]
    cases r with
    | nil =>
      simp only [Bool.false_eq_true, false_iff]
      rintro ⟨a, b, hab, ha⟩
      have h1 := List.append_eq_nil.mp hab.symm
      rw [h1.1] at ha
      simp [lowerChars] at ha
    | cons d cs =>
      simp only [Bool.and_eq_true, Bool.or_eq_true, beq_iff_eq, ih2]
      constructor
      · rintro ⟨hcd, a, b, rfl, ha⟩
        rcases hcd with hcd | hcd
        · exact absurd hcd (by simpa using hc2)
        · refine ⟨d :: a, b, rfl, ?_⟩
          simp only [lowerChars, List.map_cons] at ha ⊢
          rw [ha, hcd]
      · rintro ⟨a, b, hab, ha⟩
        cases a with
        | nil =>
          simp [lowerChars] at ha
        | cons x xs =>
          injection hab with h1 h2
          simp only [lowerChars, List.map_cons, List.cons.injEq] at ha
          subst h1
          exact ⟨Or.inr ha.1.symm, xs, b, h2, ha.2⟩

theorem like_pattern_iff {q : List Char} (hw : noWildcards q = true) (s : List Char) :
    likeMatch ('%' :: (q ++ ['%'])) s = true ↔
      ∃ l r, lowerChars s = l ++ lowerChars q ++ r := by
  show (if '%' = '%' then fun t => suffixAny (likeMatch (q ++ ['%'])) t else _) s = true ↔ _
  rw [if_pos rfl]
  show suffixAny _ s = true ↔ _
  rw [suffixAny_eq_true_iff]
  constructor
  · rintro ⟨l, t, rfl, ht⟩
    obtain ⟨a, b, rfl, ha⟩ := (likeMatch_tail_iff hw t).mp ht
    refine ⟨lowerChars l, lowerChars b, ?_⟩
    simp only [lowerChars, List.map_append]
    rw [show List.map Char.toLower a = List.map Char.toLower q from ha]
    simp
  · rintro ⟨l, r, hs⟩
    rw [lowerChars, List.map_eq_append_iff] at hs
    obtain ⟨u, v, rfl, hu, hv⟩ := hs
    rw [List.map_eq_append_iff] at hu
    obtain ⟨u1, a, rfl, hu1, ha⟩ := hu
    refine ⟨u1, a ++ v, by rw [List.append_assoc], ?_⟩
    rw [likeMatch_tail_iff hw]
    exact ⟨a, v, rfl, ha⟩

/-! The claims. -/

/-- C1: for every sequence of issue and return operations starting from a
wellformed state in which every item's status agrees with its open loans,
after each operation every catalog item has status `Issued` iff exactly one
loan record referencing it has `returned = false`, and `Available` iff zero
such open loan records reference it. -/
theorem claim_C1 (db : DB) (ops : List LoanOp) (hwf : WF db) (hinv : Inv db) :
    Inv (applyLoanOps db ops) :=
  (applyLoanOps_preserves db ops ⟨hwf, hinv⟩).2

theorem claim_C1_witness :
    WF demoDB ∧ Inv demoDB ∧ Inv (applyLoanOps demoDB demoOps) :=
  ⟨by decide, by decide, claim_C1 demoDB demoOps (by decide) (by decide)⟩

/-- C2: issuing an item whose status is `Issued` fails with `AlreadyIssued`,
creates no new loan record, and leaves the stored state unchanged. -/
theorem claim_C2 (db : DB) (b : Book) (hnd : (db.books.map Book.id).Nodup)
    (hb : b ∈ db.books) (hs : b.status = "Issued") (uid : Nat) (d : Date)
    (due : Option Date) :
    issue_book db b.id uid d due = .error .AlreadyIssued ∧
    applyLoanOp db (.issueOp b.id uid d due) = db := by
  have hf : db.books.find? (fun x => x.id == b.id) = some b :=
    find?_key_of_nodup Book.id hnd hb
  have herr : issue_book db b.id uid d due = .error .AlreadyIssued := by
    simp [issue_book, hf, hs]
  exact ⟨herr, by simp [applyLoanOp, herr]⟩

theorem claim_C2_witness :
    issue_book issuedDB 1 1 ⟨2024, 2, 1⟩ none = .error .AlreadyIssued ∧
    applyLoanOp issuedDB (.issueOp 1 1 ⟨2024, 2, 1⟩ none) = issuedDB :=
  claim_C2 issuedDB book1984I (by decide) (by decide) (by decide) 1 ⟨2024, 2, 1⟩ none

/-- C3: returning a loan record whose `returned` flag is already set fails
with `AlreadyReturned` and leaves the stored state (both the loan record and
the referenced item's status) unchanged. -/
theorem claim_C3 (db : DB) (r : Issue) (hnd : (db.issues.map Issue.id).Nodup)
    (hr : r ∈ db.issues) (hret : r.returned = true) :
    return_book db r.id = .error .AlreadyReturned ∧
    applyLoanOp db (.returnOp r.id) = db := by
  have hf : db.issues.find? (fun x => x.id == r.id) = some r :=
    find?_key_of_nodup Issue.id hnd hr
  have herr : return_book db r.id = .error .AlreadyReturned := by
    simp [return_book, hf, hret]
  exact ⟨herr, by simp [applyLoanOp, herr]⟩

theorem claim_C3_witness :
    return_book returnedDB 1 = .error .AlreadyReturned ∧
    applyLoanOp returnedDB (.returnOp 1) = returnedDB :=
  claim_C3 returnedDB closedLoan1 (by decide) (by decide) (by decide)

/-- C4: from a wellformed state satisfying the status/open-loan invariant,
issuing an existing `Available` item to an existing account and then
returning the loan record just created restores the item's status to
`Available` and leaves exactly one loan record from this pair of operations
for that item, with `returned = true`. -/
theorem claim_C4 (db : DB) (hwf : WF db) (_hinv : Inv db)
    (b : Book) (hb : b ∈ db.books) (hs : b.status = "Available")
    (u : User) (hu : u ∈ db.users) (d : Date) (due : Option Date) :
    ∃ db1 db2 loan,
      issue_book db b.id u.id d due = .ok db1 ∧
      db1.issues = db.issues ++ [loan] ∧
      loan.book_id = b.id ∧ loan.returned = false ∧
      return_book db1 loan.id = .ok db2 ∧
      db2.issues = db.issues ++ [{ loan with returned := true }] ∧
      ∀ b2 ∈ db2.books, b2.id = b.id → b2.status = "Available" := by
  obtain ⟨hndB, hndI, hfresh, hstat⟩ := hwf
  have hf : db.books.find? (fun x => x.id == b.id) = some b :=
    find?_key_of_nodup Book.id hndB hb
  have hsne : (b.status == "Issued") = false := by simp [hs]
  have husome : (db.users.find? (fun x => x.id == u.id)).isSome := by
    rw [List.find?_isSome]
    exact ⟨u, hu, by simp⟩
  obtain ⟨u0, hu0⟩ := Option.isSome_iff_exists.mp husome
  have hok : issue_book db b.id u.id d due = .ok (issueResult db b.id u.id d due) :=
    issue_book_eq_ok hf hsne hu0
  have hloanbid : (newLoan db b.id u.id d due).book_id = b.id := rfl
  have hloanid : (newLoan db b.id u.id d due).id = db.nextIssueId := rfl
  have hloanret : (newLoan db b.id u.id d due).returned = false := rfl
  have hold : ∀ x ∈ db.issues, (x.id == (newLoan db b.id u.id d due).id) = false := by
    intro x hx
    have := hfresh x hx
    rw [hloanid]
    simp only [beq_eq_false_iff_ne, ne_eq]
    omega
  have hfind1 : (issueResult db b.id u.id d due).issues.find?
      (fun r => r.id == (newLoan db b.id u.id d due).id) = some (newLoan db b.id u.id d due) := by
    show (db.issues ++ [newLoan db b.id u.id d due]).find? _ = _
    rw [find?_append_left_none hold]
    simp [List.find?]
  have hok2 := return_book_eq_ok hfind1 hloanret
  refine ⟨issueResult db b.id u.id d due,
    returnResult (issueResult db b.id u.id d due) (newLoan db b.id u.id d due).id
      (newLoan db b.id u.id d due).book_id,
    newLoan db b.id u.id d due, hok, rfl, hloanbid, hloanret, hok2, ?_, ?_⟩
  · show (db.issues ++ [newLoan db b.id u.id d due]).map _ = _
    rw [List.map_append]
    congr 1
    · conv_rhs => rw [← List.map_id db.issues]
      refine List.map_congr_left fun x hx => ?_
      have hxne : x.id ≠ (newLoan db b.id u.id d due).id := by
        have := hold x hx
        simpa using this
      simp [hxne]
    · simp
  · intro b2 hb2 hid
    simp only [returnResult, issueResult] at hb2
    rw [List.map_map] at hb2
    obtain ⟨b0, hb0, rfl⟩ := List.mem_map.mp hb2
    by_cases hc : b0.id = b.id
    · simp [Function.comp, hc, hloanbid]
    · exfalso
      apply hc
      have hb0ne : b0.id ≠ (newLoan db b.id u.id d due).book_id := by
        rw [hloanbid]; exact hc
      simp [Function.comp, hc, hb0ne] at hid

theorem claim_C4_witness :
    WF demoDB ∧ Inv demoDB ∧
    ∃ db1 db2 loan,
      issue_book demoDB book1984A.id aliceUser.id ⟨2024, 1, 1⟩ none = .ok db1 ∧
      db1.issues = demoDB.issues ++ [loan] ∧
      loan.book_id = book1984A.id ∧ loan.returned = false ∧
      return_book db1 loan.id = .ok db2 ∧
      db2.issues = demoDB.issues ++ [{ loan with returned := true }] ∧
      ∀ b2 ∈ db2.books, b2.id = book1984A.id → b2.status = "Available" :=
  ⟨by decide, by decide,
    claim_C4 demoDB (by decide) (by decide) book1984A (by decide) rfl
      aliceUser (by decide) ⟨2024, 1, 1⟩ none⟩

/-- C5: every successful issue without an explicit due date inserts a loan
record whose due (return) date is the issue date plus 14 days, and the
14-day offset maps 2024-01-01 to 2024-01-15. -/
theorem claim_C5 :
    (∀ (db : DB) (bid uid : Nat) (d : Date) (db2 : DB),
      issue_book db bid uid d none = .ok db2 →
      db2.issues = db.issues ++
        [{ id := db.nextIssueId, book_id := bid, user_id := uid, issue_date := d,
           return_date := addDays d 14, returned := false }]) ∧
    addDays ⟨2024, 1, 1⟩ 14 = ⟨2024, 1, 15⟩ := by
  constructor
  · intro db bid uid d db2 h
    obtain ⟨book, u, hf, hs, hu, rfl⟩ := issue_book_ok_inv h
    simp [issueResult, newLoan, Option.getD]
  · decide

theorem claim_C5_witness :
    c5db.issues = demoDB.issues ++
      [{ id := demoDB.nextIssueId, book_id := 1, user_id := 1, issue_date := ⟨2024, 1, 1⟩,
         return_date := addDays ⟨2024, 1, 1⟩ 14, returned := false }] ∧
    c5db.issues = [{ id := 1, book_id := 1, user_id := 1, issue_date := ⟨2024, 1, 1⟩,
                     return_date := ⟨2024, 1, 15⟩, returned := false }] := by
  have h := claim_C5.1 demoDB 1 1 ⟨2024, 1, 1⟩ c5db (by rfl)
  refine ⟨h, ?_⟩
  rw [h]
  decide

/-- C6: the issue guard reads only the item's denormalized status field; if
an item is marked `Available` while an open loan already references it
(reachable through the manual override), issuing it again succeeds and
produces a second simultaneously open loan for the same item. -/
theorem claim_C6 (db : DB) (hnd : (db.books.map Book.id).Nodup)
    (b : Book) (hb : b ∈ db.books) (hs : b.status = "Available")
    (u : User) (hu : u ∈ db.users)
    (r : Issue) (hr : r ∈ db.issues) (hrb : r.book_id = b.id) (hro : r.returned = false)
    (d : Date) (due : Option Date) :
    ∃ db2, issue_book db b.id u.id d due = .ok db2 ∧ 2 ≤ openCount db2.issues b.id := by
  have hf : db.books.find? (fun x => x.id == b.id) = some b :=
    find?_key_of_nodup Book.id hnd hb
  have hsne : (b.status == "Issued") = false := by simp [hs]
  have husome : (db.users.find? (fun x => x.id == u.id)).isSome := by
    rw [List.find?_isSome]
    exact ⟨u, hu, by simp⟩
  obtain ⟨u0, hu0⟩ := Option.isSome_iff_exists.mp husome
  refine ⟨issueResult db b.id u.id d due, issue_book_eq_ok hf hsne hu0, ?_⟩
  have hone : 0 < openCount db.issues b.id := by
    show 0 < db.issues.countP _
    rw [List.countP_pos_iff]
    exact ⟨r, hr, by simp [hrb, hro]⟩
  have happ : openCount (issueResult db b.id u.id d due).issues b.id
      = openCount db.issues b.id + 1 := by
    show openCount (db.issues ++ [newLoan db b.id u.id d due]) b.id = _
    rw [openCount_append]
    simp [newLoan]
  omega

theorem claim_C6_witness :
    ∃ db2, issue_book overrideDB 1 1 ⟨2024, 2, 1⟩ none = .ok db2 ∧
      2 ≤ openCount db2.issues 1 :=
  claim_C6 overrideDB (by decide) book1984A (by decide) rfl aliceUser (by decide)
    openLoan1 (by decide) rfl rfl ⟨2024, 2, 1⟩ none

/-- C7 counterexample: with a username not present in the store but a role
outside the two recognized values, account creation does not succeed (the
CHECK-constraint violation is caught and misreported as a duplicate), so
the claim that any absent username can be created is false as stated. -/
theorem claim_C7_counterexample :
    (¬ ∃ u ∈ demoDB.users, u.username = "zed") ∧
    create_user demoDB "zed" "pw" "staff" = .error .DuplicateUsername := by
  decide

/-- C7 (amended): creating an account whose username is already present
fails with `DuplicateUsername` and adds no account record; creating an
account with an absent username and one of the two recognized roles
succeeds and appends exactly one account record. -/
theorem claim_C7 (db : DB) (username pw role : String) :
    ((∃ u ∈ db.users, u.username = username) →
      create_user db username pw role = .error .DuplicateUsername) ∧
    ((¬ ∃ u ∈ db.users, u.username = username) → (role = "admin" ∨ role = "user") →
      create_user db username pw role = .ok
        { db with users := db.users ++ [{ id := db.nextUserId, username := username,
                                          password := pw, role := role }],
                  nextUserId := db.nextUserId + 1 }) := by
  constructor
  · rintro ⟨u, hu, hname⟩
    have hany : db.users.any (fun x => x.username == username) = true := by
      rw [List.any_eq_true]
      exact ⟨u, hu, by simp [hname]⟩
    simp [create_user, hany]
  · intro hnone hrole
    have hany : db.users.any (fun x => x.username == username) = false := by
      rw [← Bool.not_eq_true, List.any_eq_true]
      intro hcontra
      obtain ⟨u, hu, hname⟩ := hcontra
      exact hnone ⟨u, hu, by simpa using hname⟩
    have hrole2 : (role == "admin" || role == "user") = true := by
      rcases hrole with rfl | rfl <;> simp
    simp [create_user, hany, hrole2]

theorem claim_C7_witness :
    create_user demoDB "alice" "pw" "user" = .error .DuplicateUsername ∧
    create_user demoDB "bob" "pw" "user" = .ok
      { demoDB with users := demoDB.users ++ [{ id := demoDB.nextUserId, username := "bob",
                                                password := "pw", role := "user" }],
                    nextUserId := demoDB.nextUserId + 1 } :=
  ⟨(claim_C7 demoDB "alice" "pw" "user").1 (by decide),
   (claim_C7 demoDB "bob" "pw" "user").2 (by decide) (Or.inr rfl)⟩

/-- C8 counterexample: the raw query is spliced into the `LIKE` pattern, so
a `%` or `_` inside it acts as a wildcard, not a literal: the query "_" is
not a substring of either demo title (so the claim as stated demands an
empty result), yet the search returns every book whose title is nonempty. -/
theorem claim_C8_counterexample :
    (¬ ∃ l r, lowerChars "1984".toList = l ++ lowerChars "_".toList ++ r) ∧
    (¬ ∃ l r, lowerChars "The Alchemist".toList = l ++ lowerChars "_".toList ++ r) ∧
    search_books_title demoDB "_" = [book1984A, bookAlchemist] := by
  refine ⟨?_, ?_, by decide⟩
  · intro hcontra
    have hx := (containsSub_iff (lowerChars "_".toList)
      (lowerChars "1984".toList)).mpr hcontra
    exact absurd hx (by decide)
  · intro hcontra
    have hx := (containsSub_iff (lowerChars "_".toList)
      (lowerChars "The Alchemist".toList)).mpr hcontra
    exact absurd hx (by decide)

/-- C8 (amended): title search feeds the query into SQLite `LIKE '%q%'`,
where `%` and `_` act as wildcards; for every query containing neither
wildcard character it returns exactly the catalog rows whose lower-cased
title contains the lower-cased query as a contiguous substring; a query
matching no row yields the empty list rather than an error; and the query
"the" against a catalog holding "The Alchemist" and "1984" returns only
"The Alchemist". -/
theorem claim_C8 :
    (∀ (db : DB) (q : String) (b : Book), noWildcards q.toList = true →
      (b ∈ search_books_title db q ↔
        b ∈ db.books ∧ ∃ l r, lowerChars b.title.toList = l ++ lowerChars q.toList ++ r)) ∧
    (∀ (db : DB) (q : String), noWildcards q.toList = true →
      (∀ b ∈ db.books, ¬ ∃ l r, lowerChars b.title.toList = l ++ lowerChars q.toList ++ r) →
      search_books_title db q = []) ∧
    (search_books_title demoDB "the").map Book.title = ["The Alchemist"] := by
  have hmain : ∀ (db : DB) (q : String) (b : Book), noWildcards q.toList = true →
      (b ∈ search_books_title db q ↔
        b ∈ db.books ∧ ∃ l r, lowerChars b.title.toList = l ++ lowerChars q.toList ++ r) := by
    intro db q b hw
    simp only [search_books_title, List.mem_filter]
    rw [like_pattern_iff hw]
  refine ⟨hmain, ?_, ?_⟩
  · intro db q hw hnone
    rw [List.eq_nil_iff_forall_not_mem]
    intro b hbmem
    have hm := (hmain db q b hw).mp hbmem
    exact hnone b hm.1 hm.2
  · decide

theorem claim_C8_witness :
    search_books_title demoDB "zzz" = [] := by
  apply claim_C8.2.1 demoDB "zzz" (by decide)
  intro b hb hcontra
  have hx := (containsSub_iff (lowerChars "zzz".toList)
    (lowerChars b.title.toList)).mpr hcontra
  have hb2 : b = book1984A ∨ b = bookAlchemist := by
    simpa [demoDB] using hb
  rcases hb2 with rfl | rfl <;> exact absurd hx (by decide)

/-- C9 counterexample: an item update supplying the status value "Damaged"
(outside the two recognized values) does not signal `InvalidInput`; the
update succeeds and the stored status is kept. -/
theorem claim_C9_counterexample :
    update_book demoDB 1 none none none (some "Damaged") ≠ .error .InvalidInput ∧
    update_book demoDB 1 none none none (some "Damaged") = .ok demoDB := by
  decide

/-- C9 (amended): an item update supplying a status value outside
{Available, Issued} does not fail; the invalid value is discarded with a
console message, the stored status is kept, and the remaining field updates
proceed, so only the two recognized status values are ever stored. -/
theorem claim_C9 (db : DB) (bid : Nat) (t a c : Option String) (s : String)
    (hs1 : s ≠ "Available") (hs2 : s ≠ "Issued")
    (row : Book) (hf : db.books.find? (fun b => b.id == bid) = some row) :
    update_book db bid t a c (some s) = .ok
      { db with books := db.books.map (fun b =>
          if b.id = bid then
            { b with title := t.getD row.title, author := a.getD row.author,
                     category := c.getD row.category, status := row.status }
          else b) } := by
  have hbad : (s == "Available" || s == "Issued") = false := by
    simp [hs1, hs2]
  simp [update_book, hf, hbad, Option.getD]

theorem claim_C9_witness :
    update_book demoDB 1 (some "Animal Farm") none none (some "Damaged") = .ok
      { demoDB with books := [{ book1984A with title := "Animal Farm" }, bookAlchemist] } := by
  have h := claim_C9 demoDB 1 (some "Animal Farm") none none "Damaged" (by decide) (by decide)
    book1984A (by decide)
  rw [h]
  decide

/-- C10: returning an open loan whose referenced item has been deleted
still succeeds: the loan's `returned` flag is set to true and the status
update touches no item, leaving the book table unchanged. -/
theorem claim_C10 (db : DB) (r : Issue)
    (hnd : (db.issues.map Issue.id).Nodup) (hr : r ∈ db.issues) (hro : r.returned = false)
    (habs : ∀ b ∈ db.books, b.id ≠ r.book_id) :
    ∃ db2, return_book db r.id = .ok db2 ∧
      db2.books = db.books ∧
      db2.issues = db.issues.map (fun x =>
        if x.id = r.id then { x with returned := true } else x) ∧
      { r with returned := true } ∈ db2.issues := by
  have hf : db.issues.find? (fun x => x.id == r.id) = some r :=
    find?_key_of_nodup Issue.id hnd hr
  have hok := return_book_eq_ok hf hro
  refine ⟨returnResult db r.id r.book_id, hok, ?_, rfl, ?_⟩
  · show db.books.map _ = db.books
    conv_rhs => rw [← List.map_id db.books]
    exact List.map_congr_left fun b hb => by simp [habs b hb]
  · show _ ∈ db.issues.map _
    exact List.mem_map.mpr ⟨r, hr, by simp⟩

theorem claim_C10_witness :
    ∃ db2, return_book danglingDB 1 = .ok db2 ∧
      db2.books = danglingDB.books ∧
      db2.issues = danglingDB.issues.map (fun x =>
        if x.id = 1 then { x with returned := true } else x) ∧
      { danglingLoan with returned := true } ∈ db2.issues :=
  claim_C10 danglingDB danglingLoan (by decide) (by decide) rfl (by decide)

end LMS
